import Mathlib

/-
Verification of the per-document processing pipeline of the
intelligent-document-processing repository.

The authoritative orchestration source is src/step_functions/state_machine.json,
an Amazon States Language (ASL) document.  Its Choice, Retry, Catch and Map
constructs are embedded below with their ASL semantics made explicit:
StringMatches wildcards, first-matching-choice selection, per-retrier attempt
budgets (MaxAttempts counts retries after the initial attempt), catcher
matching, and inline-Map failure propagation.
-/

namespace IdpPipeline

/-! ### ASL `StringMatches` wildcard matching

The Choice state compares `$.file_name` against glob patterns such as
`*/*.pdf`, where each `*` matches any (possibly empty) sequence of
characters and every other character matches itself literally. -/

def globMatch : List Char → List Char → Bool
  | [], [] => true
  | [], _ :: _ => false
  | '*' :: p, [] => globMatch p []
  | '*' :: p, c :: s => globMatch p (c :: s) || globMatch ('*' :: p) s
  | _ :: _, [] => false
  | a :: p, c :: s => a == c && globMatch p s
  termination_by p s => (p.length, s.length)

def stringMatches (pat s : String) : Bool :=
  globMatch pat.toList s.toList

/-! ### The Choice state of the state machine

Patterns and comparison constants are verbatim from
src/step_functions/state_machine.json, in the order the Choices array
lists them. -/

def imagePatterns : List String :=
  ["*/*.jpg", "*/*.jpeg", "*/*.png", "*/*.pdf"]

def officePatterns : List String :=
  ["*/*.doc", "*/*.docx", "*/*.ppt", "*/*.pptx", "*/*.xls", "*/*.xlsx",
   "*/*.html", "*/*.htm", "*/*.md", "*/*.markdown", "*/*.csv"]

structure DocInput where
  file_name : String
  parsing_mode : String
deriving DecidableEq

/-- The four successor states the Choice state can route a document to. -/
inductive RouterTarget
  | runIdpOnImage
  | readOfficeFile
  | runBDA
  | extractText
deriving DecidableEq

/-- First choice rule: an image/PDF extension together with parsing mode
`Amazon Bedrock LLM`. -/
def visionCond (d : DocInput) : Bool :=
  imagePatterns.any (fun p => stringMatches p d.file_name)
    && (d.parsing_mode == "Amazon Bedrock LLM")

/-- Second choice rule: an office/markup extension, regardless of parsing
mode. -/
def officeCond (d : DocInput) : Bool :=
  officePatterns.any (fun p => stringMatches p d.file_name)

/-- Third choice rule: parsing mode `Bedrock Data Automation`. -/
def bdaCond (d : DocInput) : Bool :=
  d.parsing_mode == "Bedrock Data Automation"

/-- ASL Choice semantics: the first rule whose condition holds selects the
successor; with no match the Default (`Extract-text`) is taken. -/
def choiceRoute (d : DocInput) : RouterTarget :=
  if visionCond d then .runIdpOnImage
  else if officeCond d then .readOfficeFile
  else if bdaCond d then .runBDA
  else .extractText

/-- Declarative reading of the Choices array: target `t` is selected for
document `d` exactly when `t`'s rule is the first one matching `d`. -/
def routesTo (d : DocInput) (t : RouterTarget) : Prop :=
  (t = .runIdpOnImage ∧ visionCond d = true)
  ∨ (t = .readOfficeFile ∧ visionCond d = false ∧ officeCond d = true)
  ∨ (t = .runBDA ∧ visionCond d = false ∧ officeCond d = false
      ∧ bdaCond d = true)
  ∨ (t = .extractText ∧ visionCond d = false ∧ officeCond d = false
      ∧ bdaCond d = false)

instance (d : DocInput) (t : RouterTarget) : Decidable (routesTo d t) := by
  unfold routesTo; infer_instance

/-- File kinds as the spec's abstraction of the router's pattern classes. -/
inductive FileKind
  | image_pdf
  | office
  | plain_text
deriving DecidableEq

/-- The file kind a file name falls into, as classified by the router's own
extension patterns (image/PDF patterns first, as in the Choices order). -/
def fileKind (name : String) : FileKind :=
  if imagePatterns.any (fun p => stringMatches p name) then .image_pdf
  else if officePatterns.any (fun p => stringMatches p name) then .office
  else .plain_text

/-- The routing function factored through the file kind, as the spec
describes it. -/
def kindRoute : FileKind → String → RouterTarget
  | .image_pdf, pm =>
      if pm == "Amazon Bedrock LLM" then .runIdpOnImage
      else if pm == "Bedrock Data Automation" then .runBDA
      else .extractText
  | .office, _ => .readOfficeFile
  | .plain_text, pm =>
      if pm == "Bedrock Data Automation" then .runBDA else .extractText

/-! ### Retry, Catch and Map semantics

All five Task states carry a first retrier for the four designated Lambda
transient errors (`IntervalSeconds` 1, `MaxAttempts` 3, `BackoffRate` 2,
no jitter).  The three model-invocation states (`Run-IDP-On-Text`,
`Run-BDA`, `Run-IDP-On-Image`) carry a second retrier for
`States.TaskFailed` with `JitterStrategy` `FULL`, and a catcher for
`States.TaskFailed` leading to the `Pass` state.  The acquisition states
(`Read-Office-File`, `Extract-text`) have no catcher.  In ASL,
`MaxAttempts` bounds the retries made after the initial attempt, and the
name `States.TaskFailed` used in a retrier or catcher is a wildcard
matching any error except `States.Timeout`. -/

structure Retrier where
  errorEquals : List String
  intervalSeconds : Nat
  maxAttempts : Nat
  backoffRate : Nat
  jitterFull : Bool
deriving DecidableEq, Inhabited

def lambdaTransientErrors : List String :=
  ["Lambda.ServiceException", "Lambda.AWSLambdaException",
   "Lambda.SdkClientException", "Lambda.TooManyRequestsException"]

def transientRetrier : Retrier :=
  { errorEquals := lambdaTransientErrors
    intervalSeconds := 1
    maxAttempts := 3
    backoffRate := 2
    jitterFull := false }

def taskFailedRetrier : Retrier :=
  { errorEquals := ["States.TaskFailed"]
    intervalSeconds := 1
    maxAttempts := 3
    backoffRate := 2
    jitterFull := true }

def readOfficeRetries : List Retrier := [transientRetrier]

def extractTextRetries : List Retrier := [transientRetrier]

def runIdpTextRetries : List Retrier := [transientRetrier, taskFailedRetrier]

def runIdpImageRetries : List Retrier := [transientRetrier, taskFailedRetrier]

def runBdaRetries : List Retrier := [transientRetrier, taskFailedRetrier]

/-- ASL error-name matching for retriers and catchers: exact name,
the `States.ALL` wildcard, or the `States.TaskFailed` wildcard, which
matches every error except `States.Timeout`. -/
def errMatches (pat e : String) : Bool :=
  pat == e || pat == ("States.ALL")
    || (pat == ("States.TaskFailed") && !(e == ("States.Timeout")))

def retrierMatches (r : Retrier) (e : String) : Bool :=
  r.errorEquals.any (fun pat => errMatches pat e)

/-- Index of the first retrier whose `ErrorEquals` list matches the error,
as the ASL interpreter scans the Retry array in order. -/
def findRetrierIdx : List Retrier → String → Option Nat
  | [], _ => none
  | r :: rs, e =>
      if retrierMatches r e then some 0
      else (findRetrierIdx rs e).map (fun i => i + 1)

/-- Backoff cap before the `i`-th retry of a retrier (0-based):
`IntervalSeconds * BackoffRate ^ i` seconds.  With `JitterStrategy`
`FULL` the actual delay is drawn from `[0, cap]`; without jitter it is the
cap itself. -/
def retryDelay (r : Retrier) (i : Nat) : Nat :=
  r.intervalSeconds * r.backoffRate ^ i

def bumpAt (counts : List Nat) (i : Nat) : List Nat :=
  counts.set i (counts.getD i 0 + 1)

/-- One Task state's attempt loop.  `oracle k` is the outcome of attempt
`k` (`none` = success, `some e` = failure with error name `e`).  Each
retrier keeps its own count of retries, bounded by its `MaxAttempts`.
Returns the number of attempts made and the final outcome.  `fuel` only
bounds the recursion; `taskFuel` below always provides enough. -/
def runTaskFuel (rs : List Retrier) (oracle : Nat → Option String) :
    Nat → Nat → List Nat → Nat × Option String
  | 0, attempt, _ => (attempt, some ("States.Runtime"))
  | fuel + 1, attempt, counts =>
    match oracle attempt with
    | none => (attempt + 1, none)
    | some e =>
      match findRetrierIdx rs e with
      | none => (attempt + 1, some e)
      | some i =>
          if counts.getD i 0 < (rs.getD i default).maxAttempts then
            runTaskFuel rs oracle fuel (attempt + 1) (bumpAt counts i)
          else (attempt + 1, some e)

def taskFuel (rs : List Retrier) : Nat :=
  1 + (rs.map (fun r => r.maxAttempts)).sum

def runTask (rs : List Retrier) (oracle : Nat → Option String) :
    Nat × Option String :=
  runTaskFuel rs oracle (taskFuel rs) 0 (rs.map (fun _ => 0))

/-- The catcher list of the three model-invocation states. -/
def idpCatchers : List (List String) := [["States.TaskFailed"]]

/-- Outcome of one document's branch inside the Map state. -/
inductive BranchResult
  | ok
  | failedPass (e : String)
  | uncaught (e : String)
deriving DecidableEq

/-- Run a Task state that has both retriers and the catcher to `Pass`:
an error surviving the retries is caught into the `Pass` state (the
document's failed result, error payload kept at `$.error`) when a catcher
matches, and propagates out of the branch otherwise. -/
def runCaughtTask (rs : List Retrier) (catchers : List (List String))
    (oracle : Nat → Option String) : BranchResult :=
  match (runTask rs oracle).2 with
  | none => .ok
  | some e =>
      if catchers.any (fun c => c.any (fun pat => errMatches pat e)) then
        .failedPass e
      else .uncaught e

/-- One document's pipeline branch: the Choice state routes it, the
acquisition Task (if any) runs with its retriers but no catcher, and the
model-invocation Task runs with its retriers and its catcher.
`acqO` and `idpO` are the attempt oracles of the two Lambda calls. -/
def runDocument (d : DocInput) (acqO idpO : Nat → Option String) :
    BranchResult :=
  match choiceRoute d with
  | .runIdpOnImage => runCaughtTask runIdpImageRetries idpCatchers idpO
  | .runBDA => runCaughtTask runBdaRetries idpCatchers idpO
  | .readOfficeFile =>
      match (runTask readOfficeRetries acqO).2 with
      | none => runCaughtTask runIdpTextRetries idpCatchers idpO
      | some e => .uncaught e
  | .extractText =>
      match (runTask extractTextRetries acqO).2 with
      | none => runCaughtTask runIdpTextRetries idpCatchers idpO
      | some e => .uncaught e

structure BatchItem where
  doc : DocInput
  acqO : Nat → Option String
  idpO : Nat → Option String

def runDocItem (it : BatchItem) : BranchResult :=
  runDocument it.doc it.acqO it.idpO

def isUncaught : BranchResult → Bool
  | .uncaught _ => true
  | _ => false

/-- The inline Map state over the batch: every item runs its branch; an
error that escapes a branch uncaught fails the Map state itself (there is
no tolerated-failure configuration and no catcher on the Map), otherwise
the Map returns one result per item. -/
def runBatch (items : List BatchItem) : Except String (List BranchResult) :=
  match (items.map runDocItem).find? isUncaught with
  | some (BranchResult.uncaught e) => Except.error e
  | _ => Except.ok (items.map runDocItem)

def allOk : Nat → Option String := fun _ => none

def alwaysFail (e : String) : Nat → Option String := fun _ => some e

/-- A plain-text document: no extension pattern matches, parsing mode is
the OCR default, so the Choice state routes it to `Extract-text`. -/
def txtDoc : DocInput := ⟨"batch/doc.txt", "Amazon Textract"⟩

/-- An office document routed to `Read-Office-File`. -/
def officeDoc : DocInput := ⟨"batch/doc.docx", "Amazon Textract"⟩

/-- A document whose two Lambda calls both succeed. -/
def okItem : BatchItem := ⟨txtDoc, allOk, allOk⟩

/-- A document whose `Run-IDP-On-Text` call fails permanently on every
attempt — the shape of a JSON-decode (parse) fault raised by the
lambda. -/
def parseFailItem : BatchItem := ⟨txtDoc, allOk, alwaysFail ("ParseError")⟩

/-! ### Response Parser/Repair Engine (spec-modelled)

The Python body of the run_idp_on_text lambda is not part of the tree
(only its Dockerfile is), so the validation steps (c)-(e) of spec §4.4
are modelled from the spec's words. -/

/-- Modelled from the spec: a scalar JSON value (string, number, boolean
or null) as appearing in the parsed model answer.  JSON numbers are
modelled as integers; numeric precision is immaterial to the claims. -/
inductive JScalar
  | str (v : String)
  | num (v : Int)
  | bool (v : Bool)
  | null
deriving DecidableEq

/-- Modelled from the spec: a JSON value at the top level of the parsed
model answer — a scalar, an array, or an object.  Array elements and
object field values are scalars; deeper nesting is not needed by the
properties at issue. -/
inductive JVal
  | prim (v : JScalar)
  | list (vs : List JScalar)
  | obj (fields : List (String × JScalar))
deriving DecidableEq

/-- Modelled from the spec: the attribute value type enum
`{text, list}`. -/
inductive AttrType
  | text
  | list
deriving DecidableEq

/-- Modelled from the spec: an AttributeSpec, reduced to the fields the
parser consults (the description plays no role in validation). -/
structure AttributeSpec where
  name : String
  atype : AttrType
deriving DecidableEq

/-- First value bound to a key in an association list of parsed JSON
fields. -/
def lookupVal (fields : List (String × JVal)) (k : String) : Option JVal :=
  (fields.find? (fun kv => kv.1 == k)).map (fun kv => kv.2)

def renderScalar : JScalar → String
  | .str v => v
  | .num v => toString v
  | .bool v => toString v
  | .null => "null"

/-- Modelled from the spec: the documented separator used when a list
value is supplied for a `text`-typed attribute (spec §4.4 step (d):
joined with a separator). -/
def joinScalars (vs : List JScalar) : String :=
  String.intercalate (", ") (vs.map renderScalar)

/-- Modelled from the spec: step (d) of §4.4 — a scalar supplied for a
`list`-typed attribute is wrapped into a single-element list; a list
supplied for a `text`-typed attribute is joined; everything else passes
through unchanged. -/
def coerceVal : AttrType → JVal → JVal
  | .list, .prim v => .list [v]
  | .text, .list vs => .prim (.str (joinScalars vs))
  | _, v => v

/-- Modelled from the spec: step (c) of §4.4 — for every requested
attribute not present in the parsed object, insert null. -/
def fillMissing (specs : List AttributeSpec)
    (fields : List (String × JVal)) : List (String × JVal) :=
  fields ++ (specs.filter (fun a => (lookupVal fields a.name).isNone)).map
    (fun a => (a.name, JVal.prim JScalar.null))

/-- Modelled from the spec: step (d) applied pointwise, using each key's
declared type. -/
def coerceTypes (specs : List AttributeSpec)
    (fields : List (String × JVal)) : List (String × JVal) :=
  fields.map (fun kv =>
    match specs.find? (fun a => a.name == kv.1) with
    | some a => (kv.1, coerceVal a.atype kv.2)
    | none => kv)

/-- Modelled from the spec: step (e) of §4.4 — drop any keys not in the
requested attribute set. -/
def dropExtra (specs : List AttributeSpec)
    (fields : List (String × JVal)) : List (String × JVal) :=
  fields.filter (fun kv => specs.any (fun a => a.name == kv.1))

/-- Modelled from the spec: the validation pass of the Response Parser,
steps (c), (d), (e) of §4.4 in that order. -/
def validateAttrs (specs : List AttributeSpec)
    (parsed : List (String × JVal)) : List (String × JVal) :=
  dropExtra specs (coerceTypes specs (fillMissing specs parsed))

/-- The value shape demanded by the ExtractionResult invariant: a scalar
or a list of strings, never an object. -/
def wellShaped : JVal → Bool
  | .prim _ => true
  | .list vs => vs.all (fun v => match v with | .str _ => true | _ => false)
  | .obj _ => false

/-! ### The vision system prompt

The text below is verbatim from the vision extraction system prompt file
of the repository (the one Prompt Builder input present in the tree).
Its output-contract rules are additionally transcribed into an
`OutputContract` record. -/

def visionRulesHead : String :=
  "You are an AI assistant who is expert in extracting information from documents.\nCarefully read the document given provided as a collection of images where each image is a document page.\nExtract attributes listed below in <attributes></attributes> tags from the document.\nThe answer must contain the extracted attributes in JSON format. Do NOT include any other information in the answer.\nIf the attribute has multiple values, provide them as a list in this format: [\"value1\", \"value2\", \"value3\"].\nIf the attribute requires providing a description or free-form text, the value of the attribute must contain this text.\nNote that some attributes are not directly stated in the document, but their values are implicitly defined in the text.\nDo your best to extract a full value for each requested attribute from the document."

/-- The prompt's rule for absent fields, verbatim. -/
def missingFieldRule : String :=
  "If the field is missing, return null value in a string format."

def visionRulesTail : String :=
  "\nIf provided, you must also follow the additional instructions in <instructions></instructions>.\nThink step by step. First, summarize your thoughts in 2-3 sentences using <thinking></thinking> tags. Next, output the JSON in <json></json> tags.\nDo NOT include any other information in the answer. Remember that the response MUST be a valid JSON file."

def visionSystemPrompt : String :=
  (visionRulesHead ++ "\n") ++ (missingFieldRule ++ visionRulesTail)

/-- How a prompt's rules tell the model to render a missing field. -/
inductive MissingFieldRendering
  | jsonNull
  | stringNull
deriving DecidableEq

structure OutputContract where
  strictJson : Bool
  missingField : MissingFieldRendering
  listsAsJsonArrays : Bool
deriving DecidableEq

/-- The output-contract rules of the vision system prompt, transcribed:
JSON-only output is demanded twice, multiple values must be rendered as
a JSON list, and a missing field must be returned as a null value in a
string format (not as the JSON value null). -/
def visionOutputContract : OutputContract :=
  { strictJson := true
    missingField := .stringNull
    listsAsJsonArrays := true }

/-- Modelled from the spec: the vision Prompt Builder (the body of the
run_idp_on_image lambda is absent from the tree) — the system role comes
first, followed by the attribute enumeration in caller order and the
optional instructions block, per §4.2.  Attributes are (name,
description) pairs. -/
def buildVisionPrompt (attrs : List (String × String))
    (instructions : Option String) : String :=
  visionSystemPrompt ++
    (("\n\nAttributes to be extracted:\n<attributes>\n"
        ++ String.intercalate ("\n")
          (attrs.map (fun a => a.1 ++ (": ") ++ a.2))
        ++ "\n</attributes>\n")
      ++ (match instructions with
          | some ins => ("<instructions>\n" ++ ins ++ "\n</instructions>\n")
          | none => ""))

/-! ### Equation lemmas for the wildcard matcher -/

lemma globMatch_nil_cons (c : Char) (s : List Char) :
    globMatch [] (c :: s) = false := by
  rw [globMatch]

lemma globMatch_star_nil (p : List Char) :
    globMatch ('*' :: p) [] = globMatch p [] := by
  rw [globMatch]

lemma globMatch_star_cons (p : List Char) (c : Char) (s : List Char) :
    globMatch ('*' :: p) (c :: s)
      = (globMatch p (c :: s) || globMatch ('*' :: p) s) := by
  rw [globMatch]

lemma globMatch_lit_nil (a : Char) (p : List Char) (h : a ≠ '*') :
    globMatch (a :: p) [] = false := by
  rw [globMatch]
  intro h2; exact h h2

lemma globMatch_lit_cons (a : Char) (p : List Char) (c : Char) (s : List Char)
    (h : a ≠ '*') :
    globMatch (a :: p) (c :: s) = (a == c && globMatch p s) := by
  rw [globMatch]
  intro h2; exact h h2

/-- Every literal (non-wildcard) character of a matching pattern occurs in
the matched string. -/
lemma globMatch_literal_mem :
    ∀ p s, globMatch p s = true → ∀ c, c ∈ p → c ≠ '*' → c ∈ s := by
  intro p s
  induction p, s using globMatch.induct with
  | case1 => intro _ c hc; exact absurd hc (List.not_mem_nil c)
  | case2 h t =>
      intro h2; rw [globMatch_nil_cons] at h2; exact absurd h2 (by simp)
  | case3 p ih =>
      intro hm c hc hne
      rw [globMatch_star_nil] at hm
      rcases List.mem_cons.mp hc with rfl | hc2
      · exact absurd rfl hne
      · exact ih hm c hc2 hne
  | case4 p c s ih1 ih2 =>
      intro hm c' hc' hne
      rw [globMatch_star_cons] at hm
      rcases Bool.or_eq_true_iff.mp hm with h | h
      · rcases List.mem_cons.mp hc' with rfl | hcc
        · exact absurd rfl hne
        · exact ih1 h c' hcc hne
      · exact List.mem_cons_of_mem _ (ih2 h c' hc' hne)
  | case5 a p hstar =>
      intro hm
      rw [globMatch_lit_nil a p (fun h => hstar h)] at hm
      exact absurd hm (by simp)
  | case6 a p c s hstar ih =>
      intro hm c' hc' hne
      rw [globMatch_lit_cons a p c s (fun h => hstar h)] at hm
      rcases Bool.and_eq_true_iff.mp hm with ⟨hac, hrest⟩
      rcases List.mem_cons.mp hc' with rfl | hcc
      · have hh : c' = c := beq_iff_eq.mp hac
        rw [hh]; exact List.mem_cons_self _ _
      · exact List.mem_cons_of_mem _ (ih hrest c' hcc hne)

/-- A pattern without wildcards matches only itself. -/
lemma globMatch_no_star :
    ∀ p s, (∀ c ∈ p, c ≠ '*') → globMatch p s = true → p = s := by
  intro p
  induction p with
  | nil =>
      intro s _ hm
      cases s with
      | nil => rfl
      | cons c s => rw [globMatch_nil_cons] at hm; exact absurd hm (by simp)
  | cons a p ih =>
      intro s hns hm
      have ha : a ≠ '*' := hns a (List.mem_cons_self _ _)
      cases s with
      | nil => rw [globMatch_lit_nil a p ha] at hm; exact absurd hm (by simp)
      | cons c s =>
          rw [globMatch_lit_cons a p c s ha] at hm
          rcases Bool.and_eq_true_iff.mp hm with ⟨hac, hrest⟩
          have h1 : a = c := beq_iff_eq.mp hac
          have h2 : p = s :=
            ih s (fun x hx => hns x (List.mem_cons_of_mem _ hx)) hrest
          rw [h1, h2]

/-- A leading wildcard matches some suffix of the string against the rest
of the pattern. -/
lemma globMatch_star_elim :
    ∀ s p, globMatch ('*' :: p) s = true →
      ∃ t, t <:+ s ∧ globMatch p t = true := by
  intro s
  induction s with
  | nil =>
      intro p hm
      rw [globMatch_star_nil] at hm
      exact ⟨[], List.suffix_refl _, hm⟩
  | cons c s ih =>
      intro p hm
      rw [globMatch_star_cons] at hm
      rcases Bool.or_eq_true_iff.mp hm with h | h
      · exact ⟨c :: s, List.suffix_refl _, h⟩
      · rcases ih p h with ⟨t, ht, hmt⟩
        exact ⟨t, ht.trans (List.suffix_cons c s), hmt⟩

/-- A string matched by a `*/*.<ext>` pattern ends with `.<ext>`. -/
lemma matches_ext_suffix (ext : List Char) (hext : ∀ c ∈ ext, c ≠ '*')
    {s : List Char}
    (h : globMatch ('*' :: '/' :: '*' :: '.' :: ext) s = true) :
    ('.' :: ext) <:+ s := by
  rcases globMatch_star_elim s _ h with ⟨t1, ht1, h1⟩
  cases t1 with
  | nil =>
      rw [globMatch_lit_nil _ _ (by decide)] at h1
      exact absurd h1 (by simp)
  | cons c t2 =>
      rw [globMatch_lit_cons _ _ _ _ (by decide)] at h1
      rcases Bool.and_eq_true_iff.mp h1 with ⟨hc, h2⟩
      rcases globMatch_star_elim t2 _ h2 with ⟨t3, ht3, h3⟩
      have hns : ∀ x ∈ ('.' :: ext), x ≠ '*' := by
        intro x hx
        rcases List.mem_cons.mp hx with rfl | hx2
        · decide
        · exact hext x hx2
      have he : ('.' :: ext) = t3 := globMatch_no_star _ _ hns h3
      rw [he] at *
      exact (ht3.trans (List.suffix_cons c t2)).trans ht1

/-- A pattern containing a literal slash cannot match a string without
one. -/
lemma stringMatches_slash_false (pat : String) (hp : '/' ∈ pat.toList)
    (s : String) (hs : '/' ∉ s.toList) : stringMatches pat s = false := by
  cases hm : stringMatches pat s with
  | false => rfl
  | true =>
      exact absurd (globMatch_literal_mem _ _ hm '/' hp (by decide)) hs

/-- Both condition groups of the Choice state require a slash in the file
name. -/
lemma noSlash_conds (d : DocInput) (hs : '/' ∉ d.file_name.toList) :
    visionCond d = false ∧ officeCond d = false := by
  have himg : (imagePatterns.any fun p => stringMatches p d.file_name) = false := by
    simp only [imagePatterns, List.any_cons, List.any_nil,
      Bool.or_eq_false_iff]
    exact ⟨stringMatches_slash_false _ (by decide) _ hs,
      stringMatches_slash_false _ (by decide) _ hs,
      stringMatches_slash_false _ (by decide) _ hs,
      stringMatches_slash_false _ (by decide) _ hs, trivial⟩
  have hoff : (officePatterns.any fun p => stringMatches p d.file_name) = false := by
    simp only [officePatterns, List.any_cons, List.any_nil,
      Bool.or_eq_false_iff]
    exact ⟨stringMatches_slash_false _ (by decide) _ hs,
      stringMatches_slash_false _ (by decide) _ hs,
      stringMatches_slash_false _ (by decide) _ hs,
      stringMatches_slash_false _ (by decide) _ hs,
      stringMatches_slash_false _ (by decide) _ hs,
      stringMatches_slash_false _ (by decide) _ hs,
      stringMatches_slash_false _ (by decide) _ hs,
      stringMatches_slash_false _ (by decide) _ hs,
      stringMatches_slash_false _ (by decide) _ hs,
      stringMatches_slash_false _ (by decide) _ hs,
      stringMatches_slash_false _ (by decide) _ hs, trivial⟩
  constructor
  · unfold visionCond; rw [himg]; rfl
  · exact hoff

lemma suffix_disjoint {u v w : List Char} (hu : u <:+ w) (hv : v <:+ w)
    (h1 : ¬ u <:+ v) (h2 : ¬ v <:+ u) : False := by
  rcases List.suffix_or_suffix_of_suffix hu hv with h | h
  exacts [h1 h, h2 h]

/-- A file name matching one of the image/PDF patterns ends in one of the
four image extensions. -/
lemma imageAny_suffix {name : String}
    (h : (imagePatterns.any fun p => stringMatches p name) = true) :
    ['.','j','p','g'] <:+ name.toList
    ∨ ['.','j','p','e','g'] <:+ name.toList
    ∨ ['.','p','n','g'] <:+ name.toList
    ∨ ['.','p','d','f'] <:+ name.toList := by
  rw [List.any_eq_true] at h
  obtain ⟨pat, hmem, hpat⟩ := h
  fin_cases hmem
  · exact Or.inl (matches_ext_suffix ['j','p','g'] (by decide) hpat)
  · exact Or.inr (Or.inl (matches_ext_suffix ['j','p','e','g'] (by decide) hpat))
  · exact Or.inr (Or.inr (Or.inl (matches_ext_suffix ['p','n','g'] (by decide) hpat)))
  · exact Or.inr (Or.inr (Or.inr (matches_ext_suffix ['p','d','f'] (by decide) hpat)))

/-- A file name matching one of the office patterns ends in one of the
eleven office extensions. -/
lemma officeAny_suffix {name : String}
    (h : (officePatterns.any fun p => stringMatches p name) = true) :
    ['.','d','o','c'] <:+ name.toList
    ∨ ['.','d','o','c','x'] <:+ name.toList
    ∨ ['.','p','p','t'] <:+ name.toList
    ∨ ['.','p','p','t','x'] <:+ name.toList
    ∨ ['.','x','l','s'] <:+ name.toList
    ∨ ['.','x','l','s','x'] <:+ name.toList
    ∨ ['.','h','t','m','l'] <:+ name.toList
    ∨ ['.','h','t','m'] <:+ name.toList
    ∨ ['.','m','d'] <:+ name.toList
    ∨ ['.','m','a','r','k','d','o','w','n'] <:+ name.toList
    ∨ ['.','c','s','v'] <:+ name.toList := by
  rw [List.any_eq_true] at h
  obtain ⟨pat, hmem, hpat⟩ := h
  fin_cases hmem
  · exact Or.inl (matches_ext_suffix ['d','o','c'] (by decide) hpat)
  · exact Or.inr (Or.inl (matches_ext_suffix ['d','o','c','x'] (by decide) hpat))
  · exact Or.inr (Or.inr (Or.inl (matches_ext_suffix ['p','p','t'] (by decide) hpat)))
  · exact Or.inr (Or.inr (Or.inr (Or.inl
      (matches_ext_suffix ['p','p','t','x'] (by decide) hpat))))
  · exact Or.inr (Or.inr (Or.inr (Or.inr (Or.inl
      (matches_ext_suffix ['x','l','s'] (by decide) hpat)))))
  · exact Or.inr (Or.inr (Or.inr (Or.inr (Or.inr (Or.inl
      (matches_ext_suffix ['x','l','s','x'] (by decide) hpat))))))
  · exact Or.inr (Or.inr (Or.inr (Or.inr (Or.inr (Or.inr (Or.inl
      (matches_ext_suffix ['h','t','m','l'] (by decide) hpat)))))))
  · exact Or.inr (Or.inr (Or.inr (Or.inr (Or.inr (Or.inr (Or.inr (Or.inl
      (matches_ext_suffix ['h','t','m'] (by decide) hpat))))))))
  · exact Or.inr (Or.inr (Or.inr (Or.inr (Or.inr (Or.inr (Or.inr (Or.inr
      (Or.inl (matches_ext_suffix ['m','d'] (by decide) hpat)))))))))
  · exact Or.inr (Or.inr (Or.inr (Or.inr (Or.inr (Or.inr (Or.inr (Or.inr
      (Or.inr (Or.inl (matches_ext_suffix ['m','a','r','k','d','o','w','n']
        (by decide) hpat))))))))))
  · exact Or.inr (Or.inr (Or.inr (Or.inr (Or.inr (Or.inr (Or.inr (Or.inr
      (Or.inr (Or.inr (matches_ext_suffix ['c','s','v']
        (by decide) hpat))))))))))

/-- No file name matches both an image/PDF pattern and an office
pattern: the pattern classes of the Choice state are mutually
exclusive. -/
lemma image_office_excl (name : String)
    (h1 : (imagePatterns.any fun p => stringMatches p name) = true)
    (h2 : (officePatterns.any fun p => stringMatches p name) = true) :
    False := by
  rcases imageAny_suffix h1 with hi | hi | hi | hi <;>
    rcases officeAny_suffix h2 with ho | ho | ho | ho | ho | ho | ho | ho | ho | ho | ho <;>
    exact suffix_disjoint hi ho (by decide) (by decide)

lemma choiceRoute_eq_kindRoute (d : DocInput) :
    choiceRoute d = kindRoute (fileKind d.file_name) d.parsing_mode := by
  unfold choiceRoute fileKind visionCond officeCond bdaCond
  cases himg : (imagePatterns.any fun p => stringMatches p d.file_name) with
  | true =>
      cases hoff : (officePatterns.any fun p => stringMatches p d.file_name) with
      | true => exact (image_office_excl _ himg hoff).elim
      | false => simp [himg, hoff, kindRoute]
  | false =>
      cases hoff : (officePatterns.any fun p => stringMatches p d.file_name) with
      | true => simp [himg, hoff, kindRoute]
      | false => simp [himg, hoff, kindRoute]

lemma routesTo_iff (d : DocInput) (t : RouterTarget) :
    routesTo d t ↔ t = choiceRoute d := by
  unfold routesTo choiceRoute
  cases hv : visionCond d <;> cases ho : officeCond d <;>
    cases hb : bdaCond d <;> simp

lemma route_txtDoc : choiceRoute txtDoc = RouterTarget.extractText := by
  simp [choiceRoute, visionCond, officeCond, bdaCond, imagePatterns,
    officePatterns, txtDoc, stringMatches, globMatch]

lemma route_officeDoc : choiceRoute officeDoc = RouterTarget.readOfficeFile := by
  simp [choiceRoute, visionCond, officeCond, bdaCond, imagePatterns,
    officePatterns, officeDoc, stringMatches, globMatch]

lemma runDoc_okItem : runDocItem okItem = BranchResult.ok := by
  unfold runDocItem okItem
  unfold runDocument
  rw [route_txtDoc]
  decide

lemma runDoc_parseFailItem :
    runDocItem parseFailItem = BranchResult.failedPass ("ParseError") := by
  unfold runDocItem parseFailItem
  unfold runDocument
  rw [route_txtDoc]
  decide

/-- A task whose error matches no retrier is not retried: one attempt,
then the error is rethrown. -/
lemma runTask_unmatched (e : String) (he : e ∉ lambdaTransientErrors) :
    runTask [transientRetrier] (alwaysFail e) = (1, some e) := by
  have h1 : ("Lambda.ServiceException" == e) = false := by
    refine beq_eq_false_iff_ne.mpr (fun h => he ?_)
    rw [← h]; decide
  have h2 : ("Lambda.AWSLambdaException" == e) = false := by
    refine beq_eq_false_iff_ne.mpr (fun h => he ?_)
    rw [← h]; decide
  have h3 : ("Lambda.SdkClientException" == e) = false := by
    refine beq_eq_false_iff_ne.mpr (fun h => he ?_)
    rw [← h]; decide
  have h4 : ("Lambda.TooManyRequestsException" == e) = false := by
    refine beq_eq_false_iff_ne.mpr (fun h => he ?_)
    rw [← h]; decide
  have hfind : findRetrierIdx [transientRetrier] e = none := by
    simp [findRetrierIdx, retrierMatches, transientRetrier, errMatches,
      lambdaTransientErrors, h1, h2, h3, h4]
  unfold runTask taskFuel
  simp [runTaskFuel, alwaysFail, hfind]

/-! ### Lemmas about the validation pass -/

lemma keys_coerceTypes (specs : List AttributeSpec) :
    ∀ l : List (String × JVal),
      (coerceTypes specs l).map Prod.fst = l.map Prod.fst := by
  intro l
  induction l with
  | nil => rfl
  | cons kv l ih =>
      unfold coerceTypes at ih ⊢
      rw [List.map_cons, List.map_cons, List.map_cons, ih]
      congr 1
      cases h : specs.find? (fun a => a.name == kv.1) <;> simp [h]

lemma lookup_append_left {l1 l2 : List (String × JVal)} {k : String}
    {v : JVal} (h : lookupVal l1 k = some v) :
    lookupVal (l1 ++ l2) k = some v := by
  unfold lookupVal at h ⊢
  rw [List.find?_append]
  cases hf : l1.find? (fun kv => kv.1 == k) with
  | none => rw [hf] at h; simp at h
  | some kv => rw [hf] at h; simpa using h

lemma find?_map_keyPreserving (g : (String × JVal) → (String × JVal))
    (hg : ∀ kv, (g kv).1 = kv.1) (l : List (String × JVal)) (nm : String) :
    (l.map g).find? (fun kv => kv.1 == nm)
      = (l.find? (fun kv => kv.1 == nm)).map g := by
  induction l with
  | nil => rfl
  | cons kv l ih =>
      rw [List.map_cons, List.find?_cons, List.find?_cons, hg kv]
      cases hk : (kv.1 == nm) with
      | true => simp
      | false => simp [ih]

lemma find?_filter_keyTrue (q : String → Bool) (l : List (String × JVal))
    (nm : String) (hq : q nm = true) :
    (l.filter (fun kv => q kv.1)).find? (fun kv => kv.1 == nm)
      = l.find? (fun kv => kv.1 == nm) := by
  induction l with
  | nil => rfl
  | cons kv l ih =>
      rw [List.filter_cons]
      cases hqk : q kv.1 with
      | true =>
          cases hk : (kv.1 == nm) with
          | true => simp [List.find?_cons, hk]
          | false => simp [List.find?_cons, hk, ih]
      | false =>
          have hk : (kv.1 == nm) = false := by
            cases hbeq : (kv.1 == nm) with
            | false => rfl
            | true =>
                have hkeq := beq_iff_eq.mp hbeq
                rw [hkeq, hq] at hqk
                exact absurd hqk (by simp)
          simp [hqk, List.find?_cons, hk, ih]

/-! ### Claim theorems about the router -/

/-- Claim C1, counterexample: a document that matches an office extension
and at the same time has parsing mode `Bedrock Data Automation` is routed
to `Read-Office-File`, not to the automation collaborator `Run-BDA` —
the office rule precedes the automation rule in the Choices array, so the
claim that `automation_pipeline` wins is false. -/
theorem office_beats_automation_cex :
    choiceRoute ⟨"folder/report.docx", "Bedrock Data Automation"⟩
        = RouterTarget.readOfficeFile
    ∧ RouterTarget.readOfficeFile ≠ RouterTarget.runBDA := by
  constructor
  · simp [choiceRoute, visionCond, officeCond, bdaCond, imagePatterns,
      officePatterns, stringMatches, globMatch]
  · decide

/-- Claim C1, amended: the tie-break order of the Choice state is vision
first, then office, then automation; a document that simultaneously
matches an office extension and has parsing mode `Bedrock Data
Automation` is routed to the office collaborator (the office rule wins
over `automation_pipeline`). -/
theorem router_rule_order (d : DocInput) :
    (visionCond d = true → choiceRoute d = RouterTarget.runIdpOnImage)
    ∧ (visionCond d = false → officeCond d = true →
        choiceRoute d = RouterTarget.readOfficeFile)
    ∧ (visionCond d = false → officeCond d = false → bdaCond d = true →
        choiceRoute d = RouterTarget.runBDA) := by
  refine ⟨fun hv => ?_, fun hv ho => ?_, fun hv ho hb => ?_⟩
  · simp [choiceRoute, hv]
  · simp [choiceRoute, hv, ho]
  · simp [choiceRoute, hv, ho, hb]

/-- Claim C1, witness: the amended ordering applied to a concrete
document matching both the office and the automation rule. -/
theorem router_rule_order_witness :
    choiceRoute ⟨"dir/slides.pptx", "Bedrock Data Automation"⟩
        = RouterTarget.readOfficeFile := by
  exact (router_rule_order _).2.1
    (by simp [visionCond, imagePatterns, stringMatches, globMatch])
    (by simp [officeCond, officePatterns, stringMatches, globMatch])

/-- Claim C6: the Choice state is a total deterministic router — for
every document exactly one target is selected (the function
`choiceRoute` realises the first-match relation `routesTo`, and any
related target equals it), the vision rule wins whenever its condition
holds, and the selected target depends only on the pair
(file kind, parsing mode). -/
theorem router_total_deterministic (d : DocInput) :
    (routesTo d (choiceRoute d) ∧ ∀ t, routesTo d t → t = choiceRoute d)
    ∧ (visionCond d = true → choiceRoute d = RouterTarget.runIdpOnImage)
    ∧ ∀ d' : DocInput, fileKind d.file_name = fileKind d'.file_name →
        d.parsing_mode = d'.parsing_mode → choiceRoute d = choiceRoute d' := by
  refine ⟨⟨?_, ?_⟩, fun hv => ?_, fun d' h1 h2 => ?_⟩
  · exact (routesTo_iff d _).mpr rfl
  · exact fun t ht => (routesTo_iff d t).mp ht
  · simp [choiceRoute, hv]
  · rw [choiceRoute_eq_kindRoute, choiceRoute_eq_kindRoute, h1, h2]

/-- Claim C6, witness: totality, uniqueness, vision precedence and
kind-dependence at concrete documents. -/
theorem router_total_deterministic_witness :
    choiceRoute ⟨"a/b.pdf", "Amazon Bedrock LLM"⟩
        = RouterTarget.runIdpOnImage
    ∧ choiceRoute ⟨"in/x.pdf", "Amazon Bedrock LLM"⟩
        = choiceRoute ⟨"out/y.pdf", "Amazon Bedrock LLM"⟩ := by
  constructor
  · exact (router_total_deterministic _).2.1
      (by simp [visionCond, imagePatterns, stringMatches, globMatch])
  · exact (router_total_deterministic _).2.2 _
      (by simp [fileKind, imagePatterns, officePatterns, stringMatches,
        globMatch]) rfl

/-- Claim C10: every extension rule of the router requires a directory
separator, so a document whose file name contains no slash is routed by
parsing mode alone — to `Run-BDA` under `Bedrock Data Automation` and to
the default `Extract-text` (Textract) otherwise, even for a PDF or image
submitted with the vision parsing mode. -/
theorem no_slash_routes_default (d : DocInput)
    (hs : '/' ∉ d.file_name.toList) :
    choiceRoute d
      = if d.parsing_mode = "Bedrock Data Automation" then RouterTarget.runBDA
        else RouterTarget.extractText := by
  obtain ⟨hv, ho⟩ := noSlash_conds d hs
  by_cases h : d.parsing_mode = "Bedrock Data Automation"
  · simp [choiceRoute, hv, ho, bdaCond, h]
  · simp [choiceRoute, hv, ho, bdaCond, h]

/-- Claim C10, witness: a PDF submitted with the vision parsing mode but
with no directory separator in its name is routed to `Extract-text`. -/
theorem no_slash_routes_default_witness :
    choiceRoute ⟨"invoice.pdf", "Amazon Bedrock LLM"⟩
        = RouterTarget.extractText := by
  rw [no_slash_routes_default _ (by decide)]
  decide

/-! ### Claim theorems about failure isolation and retries -/

/-- Claim C2, counterexample: a batch of two documents where the second
suffers a permanent fault at its `Read-Office-File` acquisition stage
does not return two results — the fault escapes the branch (that state
has no catcher) and the Map state raises a batch-level failure. -/
theorem acquisition_fault_aborts_batch_cex :
    runBatch [okItem, ⟨officeDoc, alwaysFail ("DocumentMalformed"), allOk⟩]
      = Except.error ("DocumentMalformed") := by
  have h2 : runDocItem ⟨officeDoc, alwaysFail ("DocumentMalformed"), allOk⟩
      = BranchResult.uncaught ("DocumentMalformed") := by
    unfold runDocItem
    unfold runDocument
    rw [route_officeDoc]
    decide
  unfold runBatch
  rw [List.map_cons, List.map_cons, List.map_nil, runDoc_okItem, h2]
  rfl

/-- Claim C2, amended: a permanent fault confined to one document's
`Run-IDP-On-Text` stage (e.g. a parse fault) is isolated: for any batch
made of that document among otherwise succeeding documents, the Map
returns one result per document — the faulty one as the caught `Pass`
failure, all others ok — and raises no batch-level failure.  (A
permanent fault at an acquisition stage, by contrast, aborts the whole
batch, as those states have no catcher.) -/
theorem batch_parse_fault_isolated (n m : Nat) :
    runBatch (List.replicate n okItem ++ parseFailItem :: List.replicate m okItem)
      = Except.ok (List.replicate n BranchResult.ok
          ++ BranchResult.failedPass ("ParseError")
            :: List.replicate m BranchResult.ok) := by
  have hmap : (List.replicate n okItem
        ++ parseFailItem :: List.replicate m okItem).map runDocItem
      = List.replicate n BranchResult.ok
        ++ BranchResult.failedPass ("ParseError")
          :: List.replicate m BranchResult.ok := by
    rw [List.map_append, List.map_cons, List.map_replicate,
      List.map_replicate, runDoc_okItem, runDoc_parseFailItem]
  have hfind : (List.replicate n BranchResult.ok
        ++ BranchResult.failedPass ("ParseError")
          :: List.replicate m BranchResult.ok).find? isUncaught = none := by
    rw [List.find?_eq_none]
    intro x hx
    rcases List.mem_append.mp hx with h | h
    · rw [List.eq_of_mem_replicate h]; simp [isUncaught]
    · rcases List.mem_cons.mp h with rfl | h2
      · simp [isUncaught]
      · rw [List.eq_of_mem_replicate h2]; simp [isUncaught]
  unfold runBatch
  rw [hmap, hfind]

/-- Claim C3, counterexample: a permanent fault at the office acquisition
stage leaves the branch as an uncaught failure — it is not captured as
the document's caught failed result, contrary to the claim. -/
theorem office_fault_uncaught_cex :
    runDocument officeDoc (alwaysFail ("MalformedDocument")) allOk
        = BranchResult.uncaught ("MalformedDocument")
    ∧ BranchResult.uncaught ("MalformedDocument")
        ≠ BranchResult.failedPass ("MalformedDocument") := by
  constructor
  · unfold runDocument
    rw [route_officeDoc]
    decide
  · decide

/-- Claim C3, amended: a permanent fault (any error outside the four
designated Lambda transient errors) raised by either acquisition
collaborator is not retried and not caught within the per-document
pipeline: `Read-Office-File` and `Extract-text` have no catcher, so the
fault propagates out of the branch. -/
theorem acquisition_permanent_fault_propagates (e : String)
    (he : e ∉ lambdaTransientErrors) :
    runDocument officeDoc (alwaysFail e) allOk = BranchResult.uncaught e
    ∧ runDocument txtDoc (alwaysFail e) allOk = BranchResult.uncaught e := by
  have htask := runTask_unmatched e he
  constructor
  · unfold runDocument
    rw [route_officeDoc]
    show (match (runTask readOfficeRetries (alwaysFail e)).2 with
      | none => runCaughtTask runIdpTextRetries idpCatchers allOk
      | some e => BranchResult.uncaught e) = BranchResult.uncaught e
    rw [show readOfficeRetries = [transientRetrier] from rfl, htask]
  · unfold runDocument
    rw [route_txtDoc]
    show (match (runTask extractTextRetries (alwaysFail e)).2 with
      | none => runCaughtTask runIdpTextRetries idpCatchers allOk
      | some e => BranchResult.uncaught e) = BranchResult.uncaught e
    rw [show extractTextRetries = [transientRetrier] from rfl, htask]

/-- Claim C3, witness: the propagation theorem applied to a concrete
permanent error. -/
theorem acquisition_permanent_fault_propagates_witness :
    runDocument officeDoc (alwaysFail ("MalformedOffice")) allOk
      = BranchResult.uncaught ("MalformedOffice") := by
  exact (acquisition_permanent_fault_propagates ("MalformedOffice")
    (by decide)).1

/-- Claim C4, counterexample: the retry policies of the two stages are
not identical and do not make 3 attempts total — a persistent transient
fault at `Read-Office-File` is attempted 4 times (1 initial + 3
retries), an application error such as a decode failure is attempted
once at the acquisition stage but 4 times at the invocation stage, and
the acquisition retrier has no full jitter. -/
theorem retry_policy_claim_cex :
    (runTask readOfficeRetries (alwaysFail ("Lambda.ServiceException"))).1 = 4
    ∧ ¬ (runTask readOfficeRetries (alwaysFail ("Lambda.ServiceException"))).1 = 3
    ∧ (runTask readOfficeRetries (alwaysFail ("ValueError"))).1 = 1
    ∧ (runTask runIdpTextRetries (alwaysFail ("ValueError"))).1 = 4
    ∧ transientRetrier.jitterFull = false := by
  decide

/-- Claim C4, amended: both stages share one retrier for the four
designated Lambda transient errors — interval 1 s, backoff rate 2, 3
retries, no jitter — so a stage failing transiently on every attempt
makes 4 attempts total with non-decreasing, doubling delays starting at
1 s, after which the error is terminal; the invocation stage
additionally retries `States.TaskFailed` with full jitter, and only
there is the exhausted error caught into the document's failed result
(at the acquisition stage it propagates uncaught). -/
theorem retry_policy_actual :
    readOfficeRetries = [transientRetrier]
    ∧ extractTextRetries = [transientRetrier]
    ∧ runIdpTextRetries = [transientRetrier, taskFailedRetrier]
    ∧ taskFailedRetrier.jitterFull = true
    ∧ retryDelay transientRetrier 0 = 1
    ∧ (∀ i : Nat, retryDelay transientRetrier (i + 1)
        = 2 * retryDelay transientRetrier i)
    ∧ (∀ i : Nat, retryDelay transientRetrier i
        ≤ retryDelay transientRetrier (i + 1))
    ∧ (runTask readOfficeRetries (alwaysFail ("Lambda.ServiceException"))).1 = 4
    ∧ (runTask runIdpTextRetries (alwaysFail ("Lambda.ServiceException"))).1 = 4
    ∧ runDocument officeDoc (alwaysFail ("Lambda.ServiceException")) allOk
        = BranchResult.uncaught ("Lambda.ServiceException")
    ∧ runDocument txtDoc allOk (alwaysFail ("Lambda.TooManyRequestsException"))
        = BranchResult.failedPass ("Lambda.TooManyRequestsException") := by
  refine ⟨rfl, rfl, rfl, rfl, by decide, ?_, ?_, by decide, by decide, ?_, ?_⟩
  · intro i
    show 1 * 2 ^ (i + 1) = 2 * (1 * 2 ^ i)
    rw [pow_succ]
    ring
  · intro i
    show 1 * 2 ^ i ≤ 1 * 2 ^ (i + 1)
    have := Nat.pow_le_pow_right (show 0 < 2 by decide) (Nat.le_succ i)
    simpa using this
  · unfold runDocument
    rw [route_officeDoc]
    decide
  · unfold runDocument
    rw [route_txtDoc]
    decide

/-- Claim C5, counterexample: a permanent application error raised by the
`Run-IDP-On-Text` lambda (the shape of a JSON-decode failure) matches
the `States.TaskFailed` retrier, so the whole task — model invocation
included — is re-attempted: 4 attempts are made, not 1. -/
theorem parse_failure_retried_cex :
    (runTask runIdpTextRetries (alwaysFail ("ValueError"))).1 = 4
    ∧ ¬ (runTask runIdpTextRetries (alwaysFail ("ValueError"))).1 = 1 := by
  decide

/-- Claim C5, amended: a JSON-decode failure raised by the
`Run-IDP-On-Text` lambda is retried up to 3 more times like any
`States.TaskFailed` error (re-running the model invocation each time);
once the retries are exhausted, the catcher routes the branch to `Pass`,
marking the document failed with the error payload preserved. -/
theorem parse_failure_retried_then_caught :
    (runTask runIdpTextRetries (alwaysFail ("ValueError"))).1 = 4
    ∧ runDocument txtDoc allOk (alwaysFail ("ValueError"))
        = BranchResult.failedPass ("ValueError") := by
  constructor
  · decide
  · unfold runDocument
    rw [route_txtDoc]
    decide

/-! ### Claim theorems about the parser and the prompt -/

/-- Claim C7, counterexample: a nested object supplied by the model for
a text-typed attribute passes through the validation steps unchanged, so
a validated result can hold an object value — the invariant that every
value is a scalar or a list of strings is not enforced. -/
theorem object_value_passthrough_cex :
    validateAttrs [⟨"a", AttrType.text⟩]
        [("a", JVal.obj [("x", JScalar.num 1)])]
      = [("a", JVal.obj [("x", JScalar.num 1)])]
    ∧ wellShaped (JVal.obj [("x", JScalar.num 1)]) = false := by
  constructor
  · rfl
  · rfl

/-- Claim C7, amended: for every validated result, the key set is
exactly the requested attribute names (missing attributes are inserted
as null, extra keys are dropped); the value-shape half of the claimed
invariant does not hold, as an object value supplied for a text-typed
attribute passes through unchanged. -/
theorem validated_keys_exact (specs : List AttributeSpec)
    (parsed : List (String × JVal)) (n : String) :
    n ∈ (validateAttrs specs parsed).map Prod.fst
      ↔ n ∈ specs.map AttributeSpec.name := by
  unfold validateAttrs dropExtra
  constructor
  · intro h
    rcases List.mem_map.mp h with ⟨kv, hkv, rfl⟩
    rcases List.mem_filter.mp hkv with ⟨_, hp⟩
    rcases List.any_eq_true.mp hp with ⟨a, ha, hae⟩
    have hname : a.name = kv.1 := beq_iff_eq.mp hae
    exact hname ▸ List.mem_map.mpr ⟨a, ha, rfl⟩
  · intro h
    rcases List.mem_map.mp h with ⟨a, ha, rfl⟩
    have hkey : a.name
        ∈ (coerceTypes specs (fillMissing specs parsed)).map Prod.fst := by
      rw [keys_coerceTypes]
      cases hlk : lookupVal parsed a.name with
      | some v =>
          unfold lookupVal at hlk
          cases hf : parsed.find? (fun kv => kv.1 == a.name) with
          | none => rw [hf] at hlk; simp at hlk
          | some kv =>
              have hmem := List.mem_of_find?_eq_some hf
              have hb := List.find?_some hf
              have hkeq : kv.1 = a.name := beq_iff_eq.mp hb
              unfold fillMissing
              rw [List.map_append]
              exact List.mem_append_left _
                (hkeq ▸ List.mem_map.mpr ⟨kv, hmem, rfl⟩)
      | none =>
          unfold fillMissing
          rw [List.map_append]
          refine List.mem_append_right _ ?_
          rw [List.map_map]
          refine List.mem_map.mpr ⟨a, ?_, rfl⟩
          refine List.mem_filter.mpr ⟨ha, ?_⟩
          rw [hlk]
          rfl
    rcases List.mem_map.mp hkey with ⟨kv, hkv, hk⟩
    refine List.mem_map.mpr ⟨kv, List.mem_filter.mpr ⟨hkv, ?_⟩, hk⟩
    refine List.any_eq_true.mpr ⟨a, ha, ?_⟩
    rw [hk]
    exact beq_self_eq_true a.name

/-- Claim C8, counterexample: the vision system prompt's rule for a
missing field is the sentence demanding a null value in string format,
not the JSON value null — the transcribed output contract therefore
differs from the claimed one. -/
theorem missing_field_string_null_cex :
    (∃ pre post, visionSystemPrompt = pre ++ (missingFieldRule ++ post))
    ∧ visionOutputContract.missingField ≠ MissingFieldRendering.jsonNull := by
  exact ⟨⟨visionRulesHead ++ "\n", visionRulesTail, rfl⟩, by decide⟩

/-- Claim C8, amended: every vision prompt begins with the system role,
whose transcribed rules demand strict JSON output and JSON arrays for
multi-valued attributes, but demand that a missing field be returned as
a null value in string format rather than as the JSON value null. -/
theorem vision_prompt_contract (attrs : List (String × String))
    (instructions : Option String) :
    (∃ rest, buildVisionPrompt attrs instructions
        = visionSystemPrompt ++ rest)
    ∧ visionOutputContract.strictJson = true
    ∧ visionOutputContract.listsAsJsonArrays = true
    ∧ visionOutputContract.missingField = MissingFieldRendering.stringNull := by
  refine ⟨⟨_, rfl⟩, rfl, rfl, rfl⟩

/-- Claim C9: a scalar value supplied for a list-typed attribute is
wrapped by the validation pass into a single-element list — never
dropped, never an error. -/
theorem scalar_wrapped_for_list_attr (specs : List AttributeSpec)
    (parsed : List (String × JVal)) (nm : String) (v : JScalar)
    (hspec : specs.find? (fun a => a.name == nm) = some ⟨nm, AttrType.list⟩)
    (hval : lookupVal parsed nm = some (JVal.prim v)) :
    lookupVal (validateAttrs specs parsed) nm = some (JVal.list [v]) := by
  have hg : ∀ kv : String × JVal,
      ((fun (kv : String × JVal) =>
        match specs.find? (fun (a : AttributeSpec) => a.name == kv.1) with
        | some a => (kv.1, coerceVal a.atype kv.2)
        | none => kv) kv).1 = kv.1 := by
    intro kv
    cases h : specs.find? (fun a => a.name == kv.1) <;> simp [h]
  have h1 : lookupVal (fillMissing specs parsed) nm = some (JVal.prim v) := by
    unfold fillMissing
    exact lookup_append_left hval
  have h2 : lookupVal (coerceTypes specs (fillMissing specs parsed)) nm
      = some (JVal.list [v]) := by
    unfold lookupVal coerceTypes
    rw [find?_map_keyPreserving _ hg]
    unfold lookupVal at h1
    cases hf : (fillMissing specs parsed).find? (fun kv => kv.1 == nm) with
    | none => rw [hf] at h1; simp at h1
    | some kv0 =>
        rw [hf] at h1
        have hv0 : kv0.2 = JVal.prim v := by simpa using h1
        have hb0 := List.find?_some hf
        have hk0 : kv0.1 = nm := beq_iff_eq.mp hb0
        simp [hk0, hspec, hv0, coerceVal]
  have hq : (fun k => specs.any (fun a => a.name == k)) nm = true := by
    refine List.any_eq_true.mpr
      ⟨⟨nm, AttrType.list⟩, List.mem_of_find?_eq_some hspec, ?_⟩
    exact beq_self_eq_true nm
  unfold validateAttrs dropExtra
  unfold lookupVal
  rw [find?_filter_keyTrue (fun k => specs.any (fun a => a.name == k)) _ _ hq]
  unfold lookupVal at h2
  exact h2

/-- Claim C9, witness: the spec's scenario — attribute `tags` of type
list, model output binding it to the scalar string `finance` — validates
to a single-element list. -/
theorem scalar_wrapped_for_list_attr_witness :
    lookupVal
        (validateAttrs [⟨"tags", AttrType.list⟩]
          [("tags", JVal.prim (JScalar.str ("finance")))]) ("tags")
      = some (JVal.list [JScalar.str ("finance")]) := by
  exact scalar_wrapped_for_list_attr _ _ _ _ rfl rfl

end IdpPipeline
